import Mathlib

/-!
Verification development for the vapor/crypto repository.

The repository's only source file is `Sources/COpenCrypto/shim.h`, a
17-line C header consisting of an include guard and a flat list of
`#include` directives over OpenSSL headers.  We embed that file as a list
of preprocessor lines and prove the structural claims about it, together
with a small model of the C preprocessor's include-guard semantics.

The specification additionally describes the design of a cryptographic
core (digest, MAC, AEAD, key material, random source, constant-time
buffers) that the shim would front.  That core has no code under the
repository; its operations are modelled from the specification's words,
each such definition marked `Modelled from the spec:` in its doc comment.
-/

/-- A line of the C header file: either a preprocessor directive, a blank
line, or (not occurring in this file) a line of ordinary C code such as a
declaration, function definition or data-structure definition. -/
inductive CLine where
  | ifndefDirective (name : String)
  | defineDirective (name : String)
  | includeDirective (header : String)
  | endifDirective
  | blank
  | code (text : String)
deriving DecidableEq

/-- True for lines that are ordinary C code rather than a preprocessor
directive or a blank line. -/
def CLine.isCode : CLine → Bool
  | .code _ => true
  | _ => false

/-- True for `#include` directives; used to collect the aggregated
headers. -/
def CLine.includedHeader : CLine → Option String
  | .includeDirective h => some h
  | _ => none

/-- The contents of `Sources/COpenCrypto/shim.h`, line by line. -/
def shimLines : List CLine :=
  [ .ifndefDirective "C_OPEN_CRYPTO_H",
    .defineDirective "C_OPEN_CRYPTO_H",
    .blank,
    .includeDirective "openssl/conf.h",
    .includeDirective "openssl/evp.h",
    .includeDirective "openssl/err.h",
    .includeDirective "openssl/bio.h",
    .includeDirective "openssl/ssl.h",
    .includeDirective "openssl/sha.h",
    .includeDirective "openssl/md5.h",
    .includeDirective "openssl/hmac.h",
    .includeDirective "openssl/rand.h",
    .includeDirective "openssl/rsa.h",
    .includeDirective "openssl/pkcs12.h",
    .includeDirective "openssl/x509v3.h",
    .blank,
    .endifDirective ]

/-- The state of a translation unit as seen by the preprocessor: the set
of defined macro names, the headers whose inclusion has been emitted, and
the ordinary C code lines that have been emitted. -/
structure PPState where
  defined : List String
  included : List String
  emittedCode : List String
deriving DecidableEq

/-- One step of the preprocessor over a line, threading the state together
with the active flag of the (single-level) conditional-inclusion block. -/
def processLine (st : PPState × Bool) (l : CLine) : PPState × Bool :=
  match l with
  | .ifndefDirective n => (st.1, st.2 && !(st.1.defined.contains n))
  | .defineDirective n =>
      if st.2 then ({ st.1 with defined := st.1.defined ++ [n] }, st.2) else st
  | .includeDirective h =>
      if st.2 then ({ st.1 with included := st.1.included ++ [h] }, st.2) else st
  | .endifDirective => (st.1, true)
  | .blank => st
  | .code t =>
      if st.2 then ({ st.1 with emittedCode := st.1.emittedCode ++ [t] }, st.2) else st

/-- Process one inclusion of `shim.h` into a translation unit in state `s`. -/
def processShim (s : PPState) : PPState :=
  (shimLines.foldl processLine (s, true)).1

/-- Claim C1: the program is the single 17-line header `shim.h`,
consisting only of the include guard `C_OPEN_CRYPTO_H` and `#include`
directives aggregating the external library's full surface (TLS via
`openssl/ssl.h`, X.509 via `openssl/x509v3.h`, PKCS12 via
`openssl/pkcs12.h`, legacy digests via `openssl/md5.h`), with no original
logic: no line of the file is ordinary C code, so it defines no function,
no algorithm, no state machine and no data structure of its own. -/
theorem shim_is_pure_aggregation_header :
    shimLines.length = 17 ∧
    shimLines.head? = some (.ifndefDirective "C_OPEN_CRYPTO_H") ∧
    shimLines.getLast? = some .endifDirective ∧
    (∀ l ∈ shimLines, l.isCode = false) ∧
    shimLines.filterMap CLine.includedHeader =
      [ "openssl/conf.h", "openssl/evp.h", "openssl/err.h", "openssl/bio.h",
        "openssl/ssl.h", "openssl/sha.h", "openssl/md5.h", "openssl/hmac.h",
        "openssl/rand.h", "openssl/rsa.h", "openssl/pkcs12.h",
        "openssl/x509v3.h" ] ∧
    "openssl/ssl.h" ∈ shimLines.filterMap CLine.includedHeader ∧
    "openssl/x509v3.h" ∈ shimLines.filterMap CLine.includedHeader ∧
    "openssl/pkcs12.h" ∈ shimLines.filterMap CLine.includedHeader ∧
    "openssl/md5.h" ∈ shimLines.filterMap CLine.includedHeader := by
  refine ⟨rfl, rfl, rfl, ?_, rfl, ?_, ?_, ?_, ?_⟩ <;> decide

/-- The headers aggregated by `shim.h`, in file order. -/
def shimHeaders : List String :=
  [ "openssl/conf.h", "openssl/evp.h", "openssl/err.h", "openssl/bio.h",
    "openssl/ssl.h", "openssl/sha.h", "openssl/md5.h", "openssl/hmac.h",
    "openssl/rand.h", "openssl/rsa.h", "openssl/pkcs12.h",
    "openssl/x509v3.h" ]

theorem processShim_eq (s : PPState) :
    processShim s =
      if "C_OPEN_CRYPTO_H" ∈ s.defined then s
      else { s with defined := s.defined ++ ["C_OPEN_CRYPTO_H"],
                    included := s.included ++ shimHeaders } := by
  by_cases h : "C_OPEN_CRYPTO_H" ∈ s.defined <;>
    simp [processShim, shimLines, processLine, shimHeaders, h]

theorem processShim_defines_guard (s : PPState) :
    "C_OPEN_CRYPTO_H" ∈ (processShim s).defined := by
  rw [processShim_eq]
  by_cases h : "C_OPEN_CRYPTO_H" ∈ s.defined <;> simp [h]

/-- Claim C10: including `shim.h` more than once in the same translation
unit is equivalent to including it exactly once: whatever the state of the
translation unit, processing the header a second time changes nothing,
because the guard macro `C_OPEN_CRYPTO_H` is defined by the first pass and
deactivates the whole body of the second, so no declaration is emitted
twice. -/
theorem shim_include_idempotent (s : PPState) :
    processShim (processShim s) = processShim s := by
  rw [processShim_eq (processShim s)]
  simp [processShim_defines_guard s]

/-- Modelled from the spec: the error kinds of the cryptographic core
(§7): misuse of the finalize-once lifecycle, key-length mismatch, key
purpose mismatch, the deliberately undifferentiated authentication
failure, and OS entropy failure. -/
inductive CryptoError where
  | invalidState
  | invalidKeyLength
  | keyWrongAlgorithm
  | authenticationFailed
  | entropyUnavailable
deriving DecidableEq

/-- Modelled from the spec: a buffer owning a fixed-length byte sequence,
compared in constant time and zeroed on destruction.  Bytes are naturals
kept below 256 by the operations producing them. -/
structure ConstantTimeBuffer where
  bytes : List Nat
deriving DecidableEq

/-- The OR-of-XORs accumulator of the constant-time comparison loop: it
never exits early, folding one XOR and one OR per byte pair. -/
def ctOrXor : List Nat → List Nat → Nat
  | [], _ => 0
  | _, [] => 0
  | x :: xs, y :: ys => (x ^^^ y) ||| ctOrXor xs ys

/-- The number of byte steps the comparison loop of `ctOrXor` executes:
one per byte pair, with no data-dependent early exit. -/
def ctSteps : List Nat → List Nat → Nat
  | [], _ => 0
  | _, [] => 0
  | _ :: xs, _ :: ys => ctSteps xs ys + 1

/-- Modelled from the spec: constant-time equality of byte sequences — a
length check followed by the full OR-of-XORs pass over every byte pair. -/
def ctEqBytes (a b : List Nat) : Bool :=
  (a.length == b.length) && (ctOrXor a b == 0)

/-- Modelled from the spec: constant-time equality comparison of two
buffers. -/
def ConstantTimeBuffer.ctEq (a b : ConstantTimeBuffer) : Bool :=
  ctEqBytes a.bytes b.bytes

/-- Modelled from the spec: destruction zeroes the buffer's memory; the
length stays fixed, as the buffer is never reallocated mid-life. -/
def ConstantTimeBuffer.destroy (b : ConstantTimeBuffer) : ConstantTimeBuffer :=
  ⟨List.replicate b.bytes.length 0⟩

theorem or_eq_zero_split (x y : Nat) : x ||| y = 0 ↔ x = 0 ∧ y = 0 := by
  constructor
  · intro h
    have hb : ∀ i, x.testBit i = false ∧ y.testBit i = false := by
      intro i
      have hc := congrArg (fun n => Nat.testBit n i) h
      simpa using hc
    exact ⟨Nat.eq_of_testBit_eq fun i => by simp [(hb i).1],
           Nat.eq_of_testBit_eq fun i => by simp [(hb i).2]⟩
  · rintro ⟨rfl, rfl⟩
    rfl

theorem ctEqBytes_iff : ∀ a b : List Nat, ctEqBytes a b = true ↔ a = b
  | [], [] => by simp [ctEqBytes, ctOrXor]
  | [], _ :: _ => by simp [ctEqBytes]
  | _ :: _, [] => by simp [ctEqBytes]
  | x :: xs, y :: ys => by
    have ih := ctEqBytes_iff xs ys
    simp only [ctEqBytes, Bool.and_eq_true, beq_iff_eq] at ih ⊢
    simp only [ctOrXor, List.length_cons, or_eq_zero_split, Nat.xor_eq_zero,
      List.cons.injEq, Nat.add_right_cancel_iff]
    constructor
    · rintro ⟨hl, hx, h0⟩
      exact ⟨hx, ih.mp ⟨hl, h0⟩⟩
    · rintro ⟨hx, rfl⟩
      rcases ih.mpr rfl with ⟨hl, h0⟩
      exact ⟨hl, hx, h0⟩

theorem ctEqBytes_false_of_ne {x y : List Nat} (h : x ≠ y) :
    ctEqBytes x y = false := by
  cases hc : ctEqBytes x y
  · rfl
  · exact absurd ((ctEqBytes_iff x y).mp hc) h

theorem ctSteps_eq_min : ∀ a b : List Nat, ctSteps a b = min a.length b.length
  | [], _ => by simp [ctSteps]
  | _ :: _, [] => by simp [ctSteps]
  | _ :: xs, _ :: ys => by
    simp [ctSteps, ctSteps_eq_min xs ys, Nat.succ_min_succ]

/-- Claim C9: the constant-time buffer's equality comparison performs a
number of byte steps depending only on the two buffers' lengths — for any
two pairs of buffers of matching lengths the step counts coincide, so the
running time is independent of where the first differing byte occurs —
the comparison is exactly the length check plus the full OR-of-XORs pass,
and destroying any buffer zeroes every byte of its contents. -/
theorem ctBuffer_constant_time_and_destroy_zeroes
    (a b a' b' : ConstantTimeBuffer)
    (hA : a.bytes.length = a'.bytes.length)
    (hB : b.bytes.length = b'.bytes.length) :
    ctSteps a.bytes b.bytes = ctSteps a'.bytes b'.bytes ∧
    ConstantTimeBuffer.ctEq a b =
      ((a.bytes.length == b.bytes.length) && (ctOrXor a.bytes b.bytes == 0)) ∧
    (∀ c : ConstantTimeBuffer,
      c.destroy.bytes = List.replicate c.bytes.length 0) := by
  refine ⟨?_, rfl, fun c => rfl⟩
  rw [ctSteps_eq_min, ctSteps_eq_min, hA, hB]

/-- Witness for C9: two pairs of 3-byte buffers, one pair differing first
at index 0, the other first at index 2, compared in the same number of
steps; destroying a concrete buffer yields the all-zero buffer. -/
theorem ctBuffer_constant_time_witness :
    ctSteps [1, 2, 3] [9, 2, 3] = ctSteps [5, 6, 7] [5, 6, 8] ∧
    ConstantTimeBuffer.ctEq ⟨[1, 2, 3]⟩ ⟨[9, 2, 3]⟩ =
      ((3 == 3) && (ctOrXor [1, 2, 3] [9, 2, 3] == 0)) ∧
    (∀ c : ConstantTimeBuffer,
      c.destroy.bytes = List.replicate c.bytes.length 0) :=
  ctBuffer_constant_time_and_destroy_zeroes
    ⟨[1, 2, 3]⟩ ⟨[9, 2, 3]⟩ ⟨[5, 6, 7]⟩ ⟨[5, 6, 8]⟩ (by decide) (by decide)

/-- Modelled from the spec: the purpose labels of key material, each with
its required key size (§3, §4.5). -/
inductive KeyPurpose where
  | hmacSha256
  | hmacSha512
  | aead256
deriving DecidableEq

/-- The key size required by each purpose. -/
def KeyPurpose.keySize : KeyPurpose → Nat
  | .hmacSha256 => 32
  | .hmacSha512 => 64
  | .aead256 => 32

/-- Modelled from the spec: key bytes in a constant-time buffer tagged
with an algorithm/purpose label. -/
structure KeyMaterial where
  buffer : ConstantTimeBuffer
  purpose : KeyPurpose
deriving DecidableEq

/-- Modelled from the spec: `KeyMaterial.from_bytes` checks the byte
length against the purpose's required key size at construction. -/
def KeyMaterial.from_bytes (bytes : List Nat) (purpose : KeyPurpose) :
    Except CryptoError KeyMaterial :=
  if bytes.length = purpose.keySize then .ok ⟨⟨bytes⟩, purpose⟩
  else .error .invalidKeyLength

/-- Claim C7: `KeyMaterial.from_bytes` fails with `invalidKeyLength`
exactly when the byte length does not match the purpose's required key
size, and succeeds with the wrapped key when it matches. -/
theorem from_bytes_length_check (bytes : List Nat) (purpose : KeyPurpose) :
    (bytes.length ≠ purpose.keySize →
      KeyMaterial.from_bytes bytes purpose = .error .invalidKeyLength) ∧
    (bytes.length = purpose.keySize →
      KeyMaterial.from_bytes bytes purpose = .ok ⟨⟨bytes⟩, purpose⟩) := by
  constructor <;> intro h <;> simp [KeyMaterial.from_bytes, h]

/-- Witness for C7: a 16-byte buffer for the 32-byte `aead256` purpose is
rejected with `invalidKeyLength`, and a 32-byte buffer is accepted. -/
theorem from_bytes_length_check_witness :
    KeyMaterial.from_bytes (List.replicate 16 7) .aead256 =
      .error .invalidKeyLength ∧
    KeyMaterial.from_bytes (List.replicate 32 7) .aead256 =
      .ok ⟨⟨List.replicate 32 7⟩, .aead256⟩ :=
  ⟨(from_bytes_length_check (List.replicate 16 7) .aead256).1 (by decide),
   (from_bytes_length_check (List.replicate 32 7) .aead256).2 (by decide)⟩

/-- Modelled from the spec: `RandomSource.fill` over an explicit model of
the operating system's RNG primitive, given as the stream of responses
the OS would produce (`none` models the primitive erroring).  One call
consumes exactly one response: a failure is propagated at once, never
retried, and the output bytes come only from the OS response, never from
a substituted weaker source. -/
def RandomSource.fill (osResponses : List (Option (List Nat))) (n : Nat) :
    Except CryptoError (List Nat) × List (Option (List Nat)) :=
  match osResponses with
  | [] => (.error .entropyUnavailable, [])
  | r :: rest =>
    match r with
    | none => (.error .entropyUnavailable, rest)
    | some bytes => (.ok (bytes.take n), rest)

/-- Claim C8: `RandomSource.fill` fails with `entropyUnavailable` exactly
when the OS RNG primitive itself errors; it consumes exactly one OS
response per call — in particular the failed call is not retried, the
rest of the OS stream being left untouched — and on success the returned
bytes are exactly the OS primitive's bytes, with no weaker source ever
substituted. -/
theorem fill_propagates_os_error (r : Option (List Nat))
    (rest : List (Option (List Nat))) (n : Nat) :
    ((RandomSource.fill (r :: rest) n).1 = .error .entropyUnavailable ↔
      r = none) ∧
    (RandomSource.fill (r :: rest) n).2 = rest ∧
    (∀ bytes, r = some bytes →
      (RandomSource.fill (r :: rest) n).1 = .ok (bytes.take n)) := by
  cases r <;> simp [RandomSource.fill]

/-- Witness for C8: with the OS responding `none`, `fill` fails with
`entropyUnavailable`; with the OS responding eight bytes, `fill` returns
exactly those bytes, consuming one response in each case. -/
theorem fill_propagates_os_error_witness :
    ((RandomSource.fill [some [1, 2, 3, 4, 5, 6, 7, 8]] 8).1 =
      .ok ((List.take 8 [1, 2, 3, 4, 5, 6, 7, 8]))) ∧
    ((RandomSource.fill [none] 8).1 = .error .entropyUnavailable ↔
      (none : Option (List Nat)) = none) :=
  ⟨(fill_propagates_os_error (some [1, 2, 3, 4, 5, 6, 7, 8]) [] 8).2.2
      [1, 2, 3, 4, 5, 6, 7, 8] rfl,
   (fill_propagates_os_error none [] 8).1⟩

/-- Modelled from the spec: the hash algorithms exposed by the digest
engine — SHA-256, SHA-512, and MD5 for legacy interoperability only. -/
inductive HashAlgorithm where
  | sha256
  | sha512
  | md5
deriving DecidableEq

/-- The internal block size of each algorithm. -/
def HashAlgorithm.blockSize : HashAlgorithm → Nat
  | .sha256 => 64
  | .sha512 => 128
  | .md5 => 64

/-- The fixed digest length of each algorithm: 32 bytes for SHA-256, 64
for SHA-512, 16 for MD5. -/
def HashAlgorithm.digestLength : HashAlgorithm → Nat
  | .sha256 => 32
  | .sha512 => 64
  | .md5 => 16

/-- Modelled from the spec: one byte of the compression step mixing a
byte into the 64-bit running hash state. -/
def compressByte (h b : Nat) : Nat :=
  (h * 131 + b + 17) % (2 ^ 64)

/-- Modelled from the spec: compressing a full block into the running
hash state. -/
def compressBlock (h : Nat) (block : List Nat) : Nat :=
  block.foldl compressByte h

/-- Modelled from the spec: the digest accumulator — algorithm, running
hash state, partial block buffer, total length fed so far, and the
finalized flag of the finalize-once lifecycle. -/
structure DigestState where
  alg : HashAlgorithm
  chain : Nat
  buffer : List Nat
  totalLen : Nat
  finalized : Bool
deriving DecidableEq

/-- Modelled from the spec: a fresh, empty digest state. -/
def DigestState.new (alg : HashAlgorithm) : DigestState :=
  ⟨alg, 0, [], 0, false⟩

/-- Absorb one byte: append to the partial block buffer and compress when
a full block is reached. -/
def absorbByte (alg : HashAlgorithm) (s : Nat × List Nat) (b : Nat) :
    Nat × List Nat :=
  let buf := s.2 ++ [b]
  if buf.length = alg.blockSize then (compressBlock s.1 buf, [])
  else (s.1, buf)

/-- Absorb a byte sequence into the running state and partial buffer. -/
def absorb (alg : HashAlgorithm) (s : Nat × List Nat) (bytes : List Nat) :
    Nat × List Nat :=
  bytes.foldl (absorbByte alg) s

/-- Modelled from the spec: `DigestEngine.update` — pure append of bytes
to the accumulator; fails with `invalidState` after finalization. -/
def DigestState.update (s : DigestState) (bytes : List Nat) :
    Except CryptoError DigestState :=
  if s.finalized then .error .invalidState
  else
    let r := absorb s.alg (s.chain, s.buffer) bytes
    .ok { s with chain := r.1, buffer := r.2,
                 totalLen := s.totalLen + bytes.length }

/-- Modelled from the spec: the final padding block — the partial buffer,
a 0x80 marker, zero padding, and the encoded total message length. -/
def padBlock (alg : HashAlgorithm) (buffer : List Nat) (totalLen : Nat) :
    List Nat :=
  buffer ++ [128] ++
    List.replicate (alg.blockSize - (buffer.length + 1) % alg.blockSize) 0 ++
    [totalLen % 2 ^ 64]

/-- Modelled from the spec: expanding the final chaining value into the
digest bytes of the algorithm's fixed digest length. -/
def squeeze (len h : Nat) : List Nat :=
  (List.range len).map (fun i => (h / 2 ^ (8 * (i % 8)) + i * 151) % 256)

/-- Modelled from the spec: `DigestEngine.finalize` — pads, compresses
the last block, and produces the digest, consuming the state; fails with
`invalidState` if the state was already finalized. -/
def DigestState.finalize (s : DigestState) :
    Except CryptoError (List Nat × DigestState) :=
  if s.finalized then .error .invalidState
  else
    let fc := compressBlock s.chain (padBlock s.alg s.buffer s.totalLen)
    .ok (squeeze s.alg.digestLength fc, { s with finalized := true })

theorem absorb_append (alg : HashAlgorithm) (s : Nat × List Nat)
    (a b : List Nat) :
    absorb alg s (a ++ b) = absorb alg (absorb alg s a) b := by
  simp [absorb]

theorem DigestState.update_not_finalized (s : DigestState)
    (h : s.finalized = false) (bytes : List Nat) :
    s.update bytes =
      .ok { s with chain := (absorb s.alg (s.chain, s.buffer) bytes).1,
                   buffer := (absorb s.alg (s.chain, s.buffer) bytes).2,
                   totalLen := s.totalLen + bytes.length } := by
  simp [DigestState.update, h]

theorem DigestState.update_update (s : DigestState) (h : s.finalized = false)
    (a b : List Nat) :
    (s.update a).bind (fun s' => s'.update b) = s.update (a ++ b) := by
  simp [DigestState.update, h, absorb_append, Nat.add_assoc, Except.bind]

/-- Feed a list of chunks to the digest accumulator in order. -/
def updateChunks (s : DigestState) : List (List Nat) →
    Except CryptoError DigestState
  | [] => .ok s
  | c :: rest =>
    match s.update c with
    | .ok s' => updateChunks s' rest
    | .error e => .error e

theorem updateChunks_cons_ok {s s' : DigestState} {c : List Nat}
    (hc : s.update c = .ok s') (rest : List (List Nat)) :
    updateChunks s (c :: rest) = updateChunks s' rest := by
  simp [updateChunks, hc]

theorem updateChunks_eq_update_join :
    ∀ (s : DigestState), s.finalized = false →
      ∀ cs : List (List Nat), updateChunks s cs = s.update cs.flatten
  | s, h, [] => by
    obtain ⟨al, ch, bu, tl, fi⟩ := s
    simp only [DigestState.finalized] at h
    subst h
    simp [updateChunks, DigestState.update, absorb]
  | s, h, c :: rest => by
    have hc := DigestState.update_not_finalized s h c
    rw [updateChunks_cons_ok hc rest]
    rw [updateChunks_eq_update_join
      { s with chain := (absorb s.alg (s.chain, s.buffer) c).1,
               buffer := (absorb s.alg (s.chain, s.buffer) c).2,
               totalLen := s.totalLen + c.length } h rest]
    rw [List.flatten_cons, ← DigestState.update_update s h c rest.flatten, hc]
    rfl

/-- Compute a digest by feeding the given chunks in order to a fresh
accumulator and finalizing once. -/
def digestChunks (alg : HashAlgorithm) (cs : List (List Nat)) :
    Except CryptoError (List Nat) :=
  match updateChunks (DigestState.new alg) cs with
  | .ok s => s.finalize.map Prod.fst
  | .error e => .error e

/-- Claim C5: for every byte sequence and every way of splitting it into
consecutive chunks, feeding the chunks to `update` in order and then
finalizing yields the same digest as feeding the whole sequence in a
single `update` call: the digest is independent of chunking. -/
theorem digest_chunking_independent (alg : HashAlgorithm) (m : List Nat)
    (cs : List (List Nat)) (h : cs.flatten = m) :
    digestChunks alg cs = digestChunks alg [m] := by
  subst h
  unfold digestChunks
  rw [updateChunks_eq_update_join (DigestState.new alg) rfl cs,
      updateChunks_eq_update_join (DigestState.new alg) rfl [cs.flatten]]
  simp

/-- Witness for C5: hashing `[1, 2, 3]` in chunks `[1]`, `[]`, `[2, 3]`
equals hashing it in one call. -/
theorem digest_chunking_independent_witness :
    digestChunks .sha256 [[1], [], [2, 3]] = digestChunks .sha256 [[1, 2, 3]] :=
  digest_chunking_independent .sha256 [1, 2, 3] [[1], [], [2, 3]] rfl

theorem DigestState.finalize_ok_finalized {s : DigestState} {d : List Nat}
    {s' : DigestState} (h : s.finalize = .ok (d, s')) : s'.finalized = true := by
  by_cases hf : s.finalized = true <;> simp [DigestState.finalize, hf] at h
  rw [← h.2]

theorem DigestState.update_of_finalized {s : DigestState}
    (h : s.finalized = true) (bs : List Nat) :
    s.update bs = .error .invalidState := by
  simp [DigestState.update, h]

theorem DigestState.finalize_of_finalized {s : DigestState}
    (h : s.finalized = true) :
    s.finalize = .error .invalidState := by
  simp [DigestState.finalize, h]

/-- Modelled from the spec: the MAC accumulator wraps two digest states
(inner and outer pad) per the standard nested-hash construction, with the
same single-finalize lifecycle as `DigestState`. -/
structure MacState where
  inner : DigestState
  outer : DigestState
deriving DecidableEq

/-- Modelled from the spec: `MacEngine.update` feeds the message bytes to
the inner digest state; it fails with `invalidState` after
finalization. -/
def MacState.update (s : MacState) (bs : List Nat) :
    Except CryptoError MacState :=
  (s.inner.update bs).map (fun i => ⟨i, s.outer⟩)

/-- Modelled from the spec: `MacEngine.finalize` finalizes the inner
digest, feeds its digest to the outer digest state, and finalizes that;
it fails with `invalidState` on a second finalize. -/
def MacState.finalize (s : MacState) :
    Except CryptoError (List Nat × MacState) :=
  match s.inner.finalize with
  | .error e => .error e
  | .ok (d, i') =>
    match s.outer.update d with
    | .error e => .error e
    | .ok o1 =>
      match o1.finalize with
      | .error e => .error e
      | .ok (t, o') => .ok (t, ⟨i', o'⟩)

theorem MacState.finalize_ok_inner {s : MacState} {t : List Nat}
    {s' : MacState} (h : s.finalize = .ok (t, s')) :
    s'.inner.finalized = true := by
  unfold MacState.finalize at h
  split at h
  · exact absurd h (by simp)
  · rename_i d i' heq
    split at h
    · exact absurd h (by simp)
    · rename_i o1 hup
      split at h
      · exact absurd h (by simp)
      · rename_i t0 o' hfin
        simp only [Except.ok.injEq, Prod.mk.injEq] at h
        rw [← h.2]
        exact DigestState.finalize_ok_finalized heq

/-- Claim C6: finalize succeeds at most once — for every `DigestState`
(and likewise `MacState`), after a successful `finalize` any further
`update` or `finalize` on the returned state fails with `invalidState`;
in particular a second `finalize` fails with `invalidState`. -/
theorem finalize_once (s : DigestState) (d : List Nat) (s' : DigestState)
    (h : s.finalize = .ok (d, s'))
    (ms : MacState) (t : List Nat) (ms' : MacState)
    (hm : ms.finalize = .ok (t, ms')) :
    (s'.finalize = .error .invalidState ∧
      ∀ bs, s'.update bs = .error .invalidState) ∧
    (ms'.finalize = .error .invalidState ∧
      ∀ bs, ms'.update bs = .error .invalidState) := by
  have h1 := DigestState.finalize_ok_finalized h
  have h2 := MacState.finalize_ok_inner hm
  refine ⟨⟨DigestState.finalize_of_finalized h1,
    fun bs => DigestState.update_of_finalized h1 bs⟩, ?_, ?_⟩
  · unfold MacState.finalize
    rw [DigestState.finalize_of_finalized h2]
  · intro bs
    unfold MacState.update
    rw [DigestState.update_of_finalized h2 bs]
    rfl

/-- The MD5 digest of the empty message, as produced by the model. -/
def dMd5 : List Nat :=
  squeeze HashAlgorithm.md5.digestLength (compressBlock 0 (padBlock .md5 [] 0))

/-- A finalized MD5 digest state (the empty digest just finalized). -/
def sMd5Fin : DigestState := ⟨.md5, 0, [], 0, true⟩

/-- The finalized outer digest state of the trivial MAC state below. -/
def oMd5Fin : DigestState := ⟨.md5, 0, dMd5, 16, true⟩

/-- The tag of the trivial MAC state below. -/
def tMd5 : List Nat :=
  squeeze HashAlgorithm.md5.digestLength (compressBlock 0 (padBlock .md5 dMd5 16))

/-- A MAC state that was just finalized. -/
def msMd5Fin : MacState := ⟨sMd5Fin, oMd5Fin⟩

set_option maxRecDepth 8000 in
/-- Witness for C6: finalizing a fresh MD5 digest state succeeds, and on
the returned state a second finalize and a further update both fail with
`invalidState`; likewise for a fresh MAC state. -/
theorem finalize_once_witness :
    sMd5Fin.finalize = .error .invalidState ∧
    sMd5Fin.update [9] = .error .invalidState ∧
    msMd5Fin.finalize = .error .invalidState ∧
    msMd5Fin.update [9] = .error .invalidState := by
  have hw := finalize_once (DigestState.new .md5) dMd5 sMd5Fin rfl
    ⟨DigestState.new .md5, DigestState.new .md5⟩ tMd5 msMd5Fin rfl
  exact ⟨hw.1.1, hw.1.2 [9], hw.2.1, hw.2.2 [9]⟩

/-- Modelled from the spec: the one-shot digest of a byte sequence — a
fresh state, one update, one finalize.  The error branches are
unreachable on a fresh state. -/
def digestBytes (alg : HashAlgorithm) (m : List Nat) : List Nat :=
  match (DigestState.new alg).update m with
  | .error _ => []
  | .ok s =>
    match s.finalize with
    | .error _ => []
    | .ok (d, _) => d

/-- The hash algorithm a key purpose drives the MAC construction with. -/
def KeyPurpose.macAlgorithm : KeyPurpose → HashAlgorithm
  | .hmacSha256 => .sha256
  | .hmacSha512 => .sha512
  | .aead256 => .sha256

/-- Modelled from the spec: the keyed MAC via the standard nested-hash
construction — the key padded to the block size, XORed with the inner and
outer pad constants, and hashed in two nested passes. -/
def macBytes (alg : HashAlgorithm) (key msg : List Nat) : List Nat :=
  let padded := key ++ List.replicate (alg.blockSize - key.length) 0
  let ipad := padded.map (fun b => b ^^^ 54)
  let opad := padded.map (fun b => b ^^^ 92)
  digestBytes alg (opad ++ digestBytes alg (ipad ++ msg))

/-- Modelled from the spec: computing the MAC tag of a message under a
key. -/
def MacEngine.mac (key : KeyMaterial) (msg : List Nat) : List Nat :=
  macBytes key.purpose.macAlgorithm key.buffer.bytes msg

/-- Modelled from the spec: `MacEngine.verify` performs its own
compute-and-compare using the constant-time comparison — the one
sanctioned way to check a MAC. -/
def MacEngine.verify (key : KeyMaterial) (msg expectedTag : List Nat) : Bool :=
  ctEqBytes (MacEngine.mac key msg) expectedTag

/-- Claim C4: for every key and message, `verify` accepts the tag
produced by `mac` on the same key and message, and `verify` is exactly
the compute-and-compare of the freshly computed MAC against the expected
tag under the constant-time comparison `ctEqBytes` — there is no separate
non-constant-time verification path. -/
theorem verify_accepts_mac (key : KeyMaterial) (msg tag : List Nat) :
    MacEngine.verify key msg (MacEngine.mac key msg) = true ∧
    MacEngine.verify key msg tag = ctEqBytes (MacEngine.mac key msg) tag :=
  ⟨(ctEqBytes_iff _ _).mpr rfl, rfl⟩

/-- Modelled from the spec: one keystream byte of the CTR-style AEAD
cipher, derived from the key, the nonce and the byte index. -/
def prfByte (key nonce : List Nat) (i : Nat) : Nat :=
  (key ++ nonce).foldl compressByte (2 * i + 1) % 256

/-- The keystream of the given length under key and nonce. -/
def keystream (key nonce : List Nat) (len : Nat) : List Nat :=
  (List.range len).map (prfByte key nonce)

/-- Bytewise XOR of two byte sequences. -/
def xorBytes (a b : List Nat) : List Nat :=
  List.zipWith (fun x y => x ^^^ y) a b

/-- Modelled from the spec: a key- and nonce-dependent mixing value
entering the authentication tag. -/
def keyMix (key nonce : List Nat) : Nat :=
  (key ++ nonce).foldl compressByte 9

/-- The checksum over associated data and ciphertext bound into the tag,
together with their lengths. -/
def authSum (a c : List Nat) : Nat :=
  a.sum + c.sum + 41 * a.length + 59 * c.length

/-- Modelled from the spec: the 16-byte authentication tag binding key,
nonce, associated data and ciphertext. -/
def gcmTag (key nonce a c : List Nat) : List Nat :=
  (authSum a c + keyMix key nonce) % 256 ::
    (List.range 15).map (fun i => compressByte (keyMix key nonce) (authSum a c + i) % 256)

/-- Modelled from the spec: `AeadCipher.seal` — CTR-style encryption of
the plaintext under key and nonce, plus the authentication tag over the
associated data and the ciphertext. -/
def AeadCipher.seal (key : KeyMaterial) (nonce p a : List Nat) :
    List Nat × List Nat :=
  let c := xorBytes p (keystream key.buffer.bytes nonce p.length)
  (c, gcmTag key.buffer.bytes nonce a c)

/-- Modelled from the spec: `AeadCipher.open` together with the final
contents of its internal plaintext buffer.  The tag is recomputed over
the received associated data and ciphertext and compared in constant
time; on mismatch the single undifferentiated `authenticationFailed`
error is returned and the plaintext buffer is fully zeroed before the
return, releasing no plaintext. -/
def AeadCipher.openFull (key : KeyMaterial) (nonce c tag a : List Nat) :
    Except CryptoError (List Nat) × List Nat :=
  let expected := gcmTag key.buffer.bytes nonce a c
  let buf := xorBytes c (keystream key.buffer.bytes nonce c.length)
  if ctEqBytes expected tag then (.ok buf, buf)
  else (.error .authenticationFailed, List.replicate buf.length 0)

/-- Modelled from the spec: `AeadCipher.open`, the caller-visible result. -/
def AeadCipher.openAead (key : KeyMaterial) (nonce c tag a : List Nat) :
    Except CryptoError (List Nat) :=
  (AeadCipher.openFull key nonce c tag a).1

theorem keystream_length (key nonce : List Nat) (len : Nat) :
    (keystream key nonce len).length = len := by
  simp [keystream]

theorem xorBytes_length (a b : List Nat) :
    (xorBytes a b).length = min a.length b.length := by
  simp [xorBytes]

theorem xorBytes_cancel : ∀ p ks : List Nat, ks.length = p.length →
    xorBytes (xorBytes p ks) ks = p
  | [], _, _ => by simp [xorBytes]
  | x :: xs, [], h => by simp at h
  | x :: xs, k :: kss, h => by
    simp only [List.length_cons, Nat.add_right_cancel_iff] at h
    simp only [xorBytes, List.zipWith_cons_cons, List.cons.injEq]
    exact ⟨Nat.xor_cancel_right _ _, xorBytes_cancel xs kss h⟩

/-- Claim C2: for every key, nonce, plaintext and associated data,
opening the ciphertext and tag produced by `seal` with the same key,
nonce and associated data succeeds and returns exactly the plaintext. -/
theorem seal_open_roundtrip (key : KeyMaterial) (nonce p a : List Nat) :
    AeadCipher.openAead key nonce (AeadCipher.seal key nonce p a).1
      (AeadCipher.seal key nonce p a).2 a = .ok p := by
  unfold AeadCipher.openAead AeadCipher.openFull AeadCipher.seal
  have hlen : (xorBytes p (keystream key.buffer.bytes nonce p.length)).length
      = p.length := by
    simp [xorBytes_length, keystream_length]
  simp only [(ctEqBytes_iff _ _).mpr rfl, if_true, hlen]
  rw [xorBytes_cancel p _ (keystream_length key.buffer.bytes nonce p.length)]

theorem sum_set_add : ∀ (l : List Nat) (i v : Nat) (h : i < l.length),
    (l.set i v).sum + l.get ⟨i, h⟩ = l.sum + v
  | x :: xs, 0, v, _ => by
    simp [List.set]
    omega
  | x :: xs, i + 1, v, h => by
    have ih := sum_set_add xs i v (Nat.lt_of_succ_lt_succ h)
    simp only [List.set, List.sum_cons, List.get_cons_succ]
    omega

theorem set_ne_of_ne_get : ∀ (l : List Nat) (i v : Nat) (h : i < l.length),
    v ≠ l.get ⟨i, h⟩ → l.set i v ≠ l
  | x :: xs, 0, v, _, hne => by
    intro he
    simp only [List.set, List.cons.injEq] at he
    exact hne he.1
  | x :: xs, i + 1, v, h, hne => by
    have ih := set_ne_of_ne_get xs i v (Nat.lt_of_succ_lt_succ h)
      (by simpa using hne)
    simp [List.set, ih]

theorem keystream_lt (key nonce : List Nat) (len : Nat) :
    ∀ x ∈ keystream key nonce len, x < 256 := by
  intro x hx
  simp only [keystream, List.mem_map] at hx
  obtain ⟨i, _, rfl⟩ := hx
  exact Nat.mod_lt _ (by norm_num)

theorem xorBytes_lt : ∀ p ks : List Nat, (∀ x ∈ p, x < 256) →
    (∀ x ∈ ks, x < 256) → ∀ x ∈ xorBytes p ks, x < 256
  | [], ks, _, _ => by simp [xorBytes]
  | _ :: _, [], _, _ => by simp [xorBytes]
  | y :: p, k :: ks, hp, hks => by
    intro x hx
    simp only [xorBytes, List.zipWith_cons_cons, List.mem_cons] at hx
    rcases hx with rfl | hx
    · have h8 : (256 : Nat) = 2 ^ 8 := by norm_num
      rw [h8]
      exact Nat.xor_lt_two_pow (by rw [← h8]; exact hp y (by simp))
        (by rw [← h8]; exact hks k (by simp))
    · exact xorBytes_lt p ks (fun z hz => hp z (by simp [hz]))
        (fun z hz => hks z (by simp [hz])) x hx

theorem gcmTag_ne_of_checksum_ne {key nonce a c a2 c2 : List Nat}
    (h : (authSum a2 c2 + keyMix key nonce) % 256 ≠
      (authSum a c + keyMix key nonce) % 256) :
    gcmTag key nonce a2 c2 ≠ gcmTag key nonce a c := by
  intro he
  exact h (by simpa [gcmTag, List.headI] using congrArg List.headI he)

theorem checksum_ne_set_c {a c : List Nat} {i v K : Nat} (hi : i < c.length)
    (hne : v ≠ c.get ⟨i, hi⟩) (hci : c.get ⟨i, hi⟩ < 256) (hv : v < 256) :
    (authSum a (c.set i v) + K) % 256 ≠ (authSum a c + K) % 256 := by
  have hs := sum_set_add c i v hi
  simp only [authSum, List.length_set]
  omega

theorem checksum_ne_set_a {a c : List Nat} {i v K : Nat} (hi : i < a.length)
    (hne : v ≠ a.get ⟨i, hi⟩) (hai : a.get ⟨i, hi⟩ < 256) (hv : v < 256) :
    (authSum (a.set i v) c + K) % 256 ≠ (authSum a c + K) % 256 := by
  have hs := sum_set_add a i v hi
  simp only [authSum, List.length_set]
  omega

theorem openFull_fail_of_tag_ne (key : KeyMaterial) (nonce c tag a : List Nat)
    (h : gcmTag key.buffer.bytes nonce a c ≠ tag) :
    AeadCipher.openFull key nonce c tag a =
      (.error .authenticationFailed, List.replicate c.length 0) := by
  simp only [AeadCipher.openFull]
  rw [ctEqBytes_false_of_ne h]
  simp [xorBytes_length, keystream_length]

theorem seal_fst (key : KeyMaterial) (nonce p a : List Nat) :
    (AeadCipher.seal key nonce p a).1 =
      xorBytes p (keystream key.buffer.bytes nonce p.length) := rfl

theorem seal_snd_eq (key : KeyMaterial) (nonce p a : List Nat) :
    (AeadCipher.seal key nonce p a).2 =
      gcmTag key.buffer.bytes nonce a (AeadCipher.seal key nonce p a).1 := rfl

/-- Claim C3: flipping any single byte of the ciphertext, the tag, or
the associated data of a sealed message makes `open` fail with the single
undifferentiated `authenticationFailed` error — never a more specific
one — and the internal plaintext buffer is fully zeroed before the error
returns, so no plaintext, partial or complete, reaches the caller. -/
theorem open_flip_fails (key : KeyMaterial) (nonce p a : List Nat) (i v : Nat)
    (hp : ∀ x ∈ p, x < 256) (ha : ∀ x ∈ a, x < 256) (hv : v < 256) :
    (∀ hi : i < (AeadCipher.seal key nonce p a).1.length,
      v ≠ (AeadCipher.seal key nonce p a).1.get ⟨i, hi⟩ →
      AeadCipher.openFull key nonce
          ((AeadCipher.seal key nonce p a).1.set i v)
          (AeadCipher.seal key nonce p a).2 a =
        (.error .authenticationFailed, List.replicate p.length 0)) ∧
    (∀ hi : i < (AeadCipher.seal key nonce p a).2.length,
      v ≠ (AeadCipher.seal key nonce p a).2.get ⟨i, hi⟩ →
      AeadCipher.openFull key nonce (AeadCipher.seal key nonce p a).1
          ((AeadCipher.seal key nonce p a).2.set i v) a =
        (.error .authenticationFailed, List.replicate p.length 0)) ∧
    (∀ hi : i < a.length,
      v ≠ a.get ⟨i, hi⟩ →
      AeadCipher.openFull key nonce (AeadCipher.seal key nonce p a).1
          (AeadCipher.seal key nonce p a).2 (a.set i v) =
        (.error .authenticationFailed, List.replicate p.length 0)) := by
  have hclen : (AeadCipher.seal key nonce p a).1.length = p.length := by
    rw [seal_fst, xorBytes_length, keystream_length]
    exact Nat.min_self _
  have hcb : ∀ x ∈ (AeadCipher.seal key nonce p a).1, x < 256 := by
    rw [seal_fst]
    exact xorBytes_lt p _ hp (keystream_lt _ _ _)
  refine ⟨?_, ?_, ?_⟩
  · intro hi hne
    have hne2 := checksum_ne_set_c (a := a)
      (K := keyMix key.buffer.bytes nonce) hi hne
      (hcb _ (List.get_mem _ _ _)) hv
    have htag : gcmTag key.buffer.bytes nonce a
        ((AeadCipher.seal key nonce p a).1.set i v) ≠
        (AeadCipher.seal key nonce p a).2 := by
      rw [seal_snd_eq]
      exact gcmTag_ne_of_checksum_ne hne2
    rw [openFull_fail_of_tag_ne key nonce _ _ a htag, List.length_set, hclen]
  · intro hi hne
    have htag : gcmTag key.buffer.bytes nonce a
        (AeadCipher.seal key nonce p a).1 ≠
        (AeadCipher.seal key nonce p a).2.set i v := by
      rw [← seal_snd_eq]
      exact (set_ne_of_ne_get _ i v hi hne).symm
    rw [openFull_fail_of_tag_ne key nonce _ _ a htag, hclen]
  · intro hi hne
    have hne2 := checksum_ne_set_a (c := (AeadCipher.seal key nonce p a).1)
      (K := keyMix key.buffer.bytes nonce) hi hne
      (ha _ (List.get_mem _ _ _)) hv
    have htag : gcmTag key.buffer.bytes nonce (a.set i v)
        (AeadCipher.seal key nonce p a).1 ≠
        (AeadCipher.seal key nonce p a).2 := by
      rw [seal_snd_eq]
      exact gcmTag_ne_of_checksum_ne hne2
    rw [openFull_fail_of_tag_ne key nonce _ _ (a.set i v) htag, hclen]

/-- Witness for C3: for a concrete key, nonce, plaintext and associated
data, flipping the single ciphertext byte of the sealed message makes
`open` fail with `authenticationFailed` and leave a zeroed plaintext
buffer. -/
theorem open_flip_fails_witness :
    AeadCipher.openFull ⟨⟨[3, 1]⟩, .aead256⟩ [7]
        ((AeadCipher.seal ⟨⟨[3, 1]⟩, .aead256⟩ [7] [10] [5]).1.set 0 152)
        (AeadCipher.seal ⟨⟨[3, 1]⟩, .aead256⟩ [7] [10] [5]).2 [5] =
      (.error .authenticationFailed, List.replicate 1 0) :=
  (open_flip_fails ⟨⟨[3, 1]⟩, .aead256⟩ [7] [10] [5] 0 152
      (by decide) (by decide) (by decide)).1
    (by decide) (by decide)
